import Mathlib

/-!
Shallow embedding of the `spotlightr-to-cloudflare` migration scripts
(`src/migrate.js` and `src/upload-captions.js`), together with theorems
settling the specification claims about the migration engine, the result
ledger, the name normalizer, the SRT-to-VTT transcoder and the caption
matcher.

The JavaScript sources are single-threaded and strictly sequential, so each
tool's main loop is embedded as a pure fold over the manifest; file-system
effects (ledger writes, log appends) and remote calls are made observable as
counters and traces carried in an explicit state record.
-/

namespace Spotlightr

/-! ## Shared data model

`Row` is one parsed CSV record (`migrate.js` reads the columns with
`row["video"] || ""` and friends, so a missing column and an empty string
are indistinguishable; both are modelled as `""`).

`ResultEntry` is one element of `migration-results.json`: success entries
carry `cloudflareUid` and `success = true`, failure entries carry `error`
and `success = false` (`src/migrate.js` lines 205-239). -/

structure Row where
  video : String
  originalFileURL : String
  project : String
  id : String
  URL : String
deriving DecidableEq

structure Video where
  name : String
  url : String
  projectId : String
  spotlightrId : String
  hlsUrl : String
deriving DecidableEq

structure ResultEntry where
  spotlightrId : String
  name : String
  projectId : String
  sourceUrl : String
  cloudflareUid : Option String
  success : Bool
  error : Option String
  timestamp : String
deriving DecidableEq

/-! ## Ledger load (`src/migrate.js` lines 51-60, `src/upload-captions.js` lines 83-90)

The on-disk state of `migration-results.json` is either absent, present but
unparseable, or a parsed list of entries. -/

inductive LedgerFile where
  | absent
  | corrupt
  | parsed (entries : List ResultEntry)
deriving DecidableEq

/-- Embeds `loadPreviousResults` from `src/migrate.js`: returns `[]` when the file
does not exist, and — via the bare `catch` — also returns `[]` when the file
exists but `JSON.parse` fails. -/
def loadPreviousResults : LedgerFile → List ResultEntry
  | .absent => []
  | .corrupt => []
  | .parsed es => es

/-- How `loadMigrationResults` in `src/upload-captions.js` terminates
abnormally: `process.exit(1)` when the file is missing, or an uncaught
`JSON.parse` exception when the file is unreadable as JSON. -/
inductive CaptionLoadError where
  | missingResultsFile
  | parseFault
deriving DecidableEq

/-- Embeds `loadMigrationResults` from `src/upload-captions.js`: exits when the
file is missing, propagates the parse exception when it is corrupt, and
otherwise returns only the `success` entries. -/
def loadMigrationResults : LedgerFile → Except CaptionLoadError (List ResultEntry)
  | .absent => .error .missingResultsFile
  | .corrupt => .error .parseFault
  | .parsed es => .ok (es.filter (·.success))

/-! ## Video filtering (`src/migrate.js` lines 87-118) -/

/-- Embeds `extractMigratableVideos`: drops rows whose original URL is empty or the
`"DELETED"` sentinel, then rows whose project does not match an active
`--project` filter (a `--project=` flag yields the empty string, which is
falsy in JavaScript, so it does not activate the filter). -/
def extractMigratableVideos (filterProject : Option String) (records : List Row) :
    List Video :=
  records.filterMap fun row =>
    if row.originalFileURL = "" ∨ row.originalFileURL = "DELETED" then none
    else if (match filterProject with
             | some f => f != "" && row.project != f
             | none => false) then none
    else some ⟨row.video, row.originalFileURL, row.project, row.id, row.URL⟩

/-! ## The remote call and per-item outcomes -/

/-- Outcome of one `uploadToCloudflare` call: a response with
`success: true` (carrying `response.result?.uid`, absent when the response
has no result object), a structured failure response (carrying
`response.errors`, possibly absent), or a thrown transport fault. -/
inductive SubmitResult where
  | ok (uid : Option String)
  | apiFail (errors : Option (List String))
  | exn (message : String)
deriving DecidableEq

/-- Embeds `response.result?.uid || "unknown"`: a missing or empty uid becomes
`"unknown"`. -/
def cfUidOf : Option String → String
  | none => "unknown"
  | some u => if u = "" then "unknown" else u

/-- Embeds `response.errors?.map((e) => e.message).join(", ") || "Unknown error"`. -/
def apiErrorMsg : Option (List String) → String
  | none => "Unknown error"
  | some es =>
    let j := String.intercalate ", " es
    if j = "" then "Unknown error" else j

/-- The entry pushed on a successful response (`src/migrate.js` lines 205-213). -/
def successEntry (v : Video) (uid : Option String) (ts : String) : ResultEntry :=
  ⟨v.spotlightrId, v.name, v.projectId, v.url, some (cfUidOf uid), true, none, ts⟩

/-- The entry pushed on a failure response or a thrown fault
(`src/migrate.js` lines 218-226 and 231-239). -/
def failureEntry (v : Video) (msg ts : String) : ResultEntry :=
  ⟨v.spotlightrId, v.name, v.projectId, v.url, none, false, some msg, ts⟩

/-- The entry recorded for one submitted video. -/
def entryFor (r : SubmitResult) (v : Video) (ts : String) : ResultEntry :=
  match r with
  | .ok uid => successEntry v uid ts
  | .apiFail es => failureEntry v (apiErrorMsg es) ts
  | .exn m => failureEntry v m ts

/-! ## The migration engine (`src/migrate.js` lines 147-263)

The engine state makes the script's effects observable: `results` is the
in-memory array, `persisted` is the parsed content of the results file
(`saveMigrationResults` overwrites it with the whole current array),
`writes` counts `writeFileSync` calls on the results file, and `submitted`
is the trace of `uploadToCloudflare` invocations in order. -/

structure EngineState where
  results : List ResultEntry
  persisted : List ResultEntry
  writes : Nat
  submitted : List Video
  successCount : Nat
  skipCount : Nat
  failCount : Nat
deriving DecidableEq

/-- Embeds `new Set(previousResults.filter((r) => r.success).map((r) => r.spotlightrId))`,
computed once before the loop (`src/migrate.js` line 173). -/
def alreadyMigratedOf (prev : List ResultEntry) : List String :=
  (prev.filter (·.success)).map (·.spotlightrId)

/-- The ledger predicate the spec calls `isCompleted`: some entry for this
id has `outcome = Success`. -/
def isCompleted (entries : List ResultEntry) (id : String) : Bool :=
  entries.any fun e => e.success && e.spotlightrId == id

/-- One iteration of the migration loop (`src/migrate.js` lines 180-250):
skip when the id is in the pre-computed `alreadyMigrated` set; in dry-run
mode only count; otherwise invoke the remote call, push the outcome entry
and persist the whole array. -/
def stepVideo (dryRun : Bool) (already : List String) (r : SubmitResult)
    (ts : String) (st : EngineState) (v : Video) : EngineState :=
  if already.contains v.spotlightrId then
    { st with skipCount := st.skipCount + 1 }
  else if dryRun then
    { st with successCount := st.successCount + 1 }
  else
    let results := st.results ++ [entryFor r v ts]
    { st with
      results := results
      persisted := results
      writes := st.writes + 1
      submitted := st.submitted ++ [v]
      successCount := st.successCount + (match r with | .ok _ => 1 | _ => 0)
      failCount := st.failCount + (match r with | .ok _ => 0 | _ => 1) }

/-- The migration loop; `i` is the loop index (the JavaScript call sites may
return a different outcome per call, hence `submit` and `stamp` depend on
it). -/
def engineLoop (dryRun : Bool) (already : List String)
    (submit : Nat → Video → SubmitResult) (stamp : Nat → String) :
    Nat → List Video → EngineState → EngineState
  | _, [], st => st
  | i, v :: rest, st =>
    engineLoop dryRun already submit stamp (i + 1) rest
      (stepVideo dryRun already (submit i v) (stamp i) st v)

/-- State at the top of `main`: in-memory `results` is a copy of the loaded
previous results, the file still holds them, nothing written or submitted. -/
def initState (prev : List ResultEntry) : EngineState :=
  ⟨prev, prev, 0, [], 0, 0, 0⟩

/-- Embeds `main` of `src/migrate.js` from line 162 on (console output elided):
extract the migratable videos, freeze the already-migrated id set, then run
the loop.  The final summary prints `successCount`, `skipCount`,
`failCount` and `videos.length` as Total. -/
def runEngine (dryRun : Bool) (filterProject : Option String)
    (submit : Nat → Video → SubmitResult) (stamp : Nat → String)
    (records : List Row) (prev : List ResultEntry) : EngineState :=
  engineLoop dryRun (alreadyMigratedOf prev) submit stamp 0
    (extractMigratableVideos filterProject records) (initState prev)

/-! ## Name normalizer (`src/upload-captions.js` lines 60-66)

`normalize` chains four `String.prototype` operations; each regex stage is
embedded on `List Char`.  JavaScript regexes without the `m` flag anchor `$`
at the very end of the string only. -/

/-- The character class `\s` of JavaScript regexes (also the set removed by
`String.prototype.trim`). -/
def jsWs (c : Char) : Bool :=
  c == ' ' || c == '\t' || c == '\n' || c.val == 11 || c.val == 12 || c == '\r' ||
  c.val == 0xa0 || c.val == 0x1680 || (0x2000 ≤ c.val && c.val ≤ 0x200a) ||
  c.val == 0x2028 || c.val == 0x2029 || c.val == 0x202f || c.val == 0x205f ||
  c.val == 0x3000 || c.val == 0xfeff

/-- Stage one, `.replace(/\.(mp4|srt|MP4)$/i, "")`: drop a final case-insensitive
`".mp4"` or `".srt"` (the `MP4` alternative is subsumed by the `i` flag;
`/i` on these ASCII letters is ASCII case folding). -/
def stripExt (l : List Char) : List Char :=
  let tail4 := (l.drop (l.length - 4)).map Char.toLower
  if 4 ≤ l.length ∧ (tail4 = ".mp4".data ∨ tail4 = ".srt".data) then
    l.take (l.length - 4)
  else l

/-- Stage two, `.replace(/[_.]$/g, "")`: `$` matches only at the end, so at most the
one final character is removed even with the `g` flag. -/
def stripSep (l : List Char) : List Char :=
  match l.getLast? with
  | some c => if c = '_' ∨ c = '.' then l.dropLast else l
  | none => l

/-- Stage three, `.replace(/\s+/g, " ")`, written as a single pass: the flag records
whether the previous character was part of a whitespace run. -/
def collapseAux : Bool → List Char → List Char
  | _, [] => []
  | inRun, c :: rest =>
    if jsWs c then
      if inRun then collapseAux true rest
      else ' ' :: collapseAux true rest
    else c :: collapseAux false rest

def collapseWs (l : List Char) : List Char := collapseAux false l

/-- Stage four, `String.prototype.trim`: drop leading and trailing `jsWs` characters. -/
def trimWs (l : List Char) : List Char :=
  ((l.dropWhile jsWs).reverse.dropWhile jsWs).reverse

/-- Embeds `normalize` from `src/upload-captions.js`. -/
def normalize (s : String) : String :=
  ⟨trimWs (collapseWs (stripSep (stripExt s.data)))⟩

/-! ## SRT to VTT transcoder (`src/upload-captions.js` lines 73-79) -/

/-- Embeds `.replace(/\r\n/g, "\n")`: leftmost, non-overlapping. -/
def crlfToLf : List Char → List Char
  | '\r' :: '\n' :: rest => '\n' :: crlfToLf rest
  | c :: rest => c :: crlfToLf rest
  | [] => []

/-- Embeds `.replace(/\r/g, "\n")`. -/
def crToLf (l : List Char) : List Char :=
  l.map fun c => if c == '\r' then '\n' else c

/-- Does the list begin with the 12-character pattern
`\d{2}:\d{2}:\d{2},\d{3}`? -/
def tsAt : List Char → Bool
  | a :: b :: c :: d :: e :: f :: g :: h :: i :: j :: k :: m :: _ =>
    a.isDigit && b.isDigit && c == ':' && d.isDigit && e.isDigit && f == ':' &&
    g.isDigit && h.isDigit && i == ',' && j.isDigit && k.isDigit && m.isDigit
  | _ => false

/-- Embeds `.replace(/(\d{2}:\d{2}:\d{2}),(\d{3})/g, "$1.$2")`: scan left to right;
on a match, keep the first 8 characters, turn the comma into a period, keep
the 3 digits, and continue after the match (non-overlapping); otherwise
move one character on.  The fuel argument (initially the length) keeps the
recursion structural so that the kernel can evaluate it. -/
def fixTsAux : Nat → List Char → List Char
  | 0, l => l
  | fuel + 1, l =>
    match l with
    | [] => []
    | x :: rest =>
      if tsAt (x :: rest) then
        l.take 8 ++ '.' :: (l.drop 9).take 3 ++ fixTsAux fuel (l.drop 12)
      else x :: fixTsAux fuel rest

def fixTimestamps (l : List Char) : List Char := fixTsAux l.length l

/-- Embeds `srtToVtt` from `src/upload-captions.js`. -/
def srtToVtt (srtContent : String) : String :=
  "WEBVTT\n\n" ++ ⟨trimWs (fixTimestamps (crToLf (crlfToLf srtContent.data)))⟩ ++ "\n"

/-! ## Caption matcher (`src/upload-captions.js` lines 105-135)

The `Map` is modelled as an association list with unique keys;
`insertFirst` is the `if (!nameToVideo.has(key)) nameToVideo.set(key, result)`
body, which keeps the first entry seen for a key. -/

structure CaptionMatch where
  srtFile : String
  videoName : String
  cloudflareUid : Option String
  spotlightrId : String
deriving DecidableEq

def insertFirst (m : List (String × ResultEntry)) (k : String) (r : ResultEntry) :
    List (String × ResultEntry) :=
  if m.any (fun p => p.1 == k) then m else m ++ [(k, r)]

def buildNameMap (rs : List ResultEntry) : List (String × ResultEntry) :=
  rs.foldl (fun m r => insertFirst m (normalize r.name) r) []

def lookupName (m : List (String × ResultEntry)) (k : String) : Option ResultEntry :=
  (m.find? (fun p => p.1 == k)).map (·.2)

/-- The `for (const srtFile of srtFiles)` loop, pushing onto `matched` and
`unmatched`. -/
def matchLoop (m : List (String × ResultEntry)) :
    List String → List CaptionMatch → List String → List CaptionMatch × List String
  | [], matched, unmatched => (matched, unmatched)
  | f :: rest, matched, unmatched =>
    match lookupName m (normalize f) with
    | some video =>
      matchLoop m rest
        (matched ++ [⟨f, video.name, video.cloudflareUid, video.spotlightrId⟩]) unmatched
    | none => matchLoop m rest matched (unmatched ++ [f])

/-- Embeds `matchCaptions` from `src/upload-captions.js`. -/
def matchCaptions (srtFiles : List String) (migrationResults : List ResultEntry) :
    List CaptionMatch × List String :=
  matchLoop (buildNameMap migrationResults) srtFiles [] []

/-! ## Caption upload loop (`src/upload-captions.js` lines 163-283)

`uploads` counts per-item remote upload attempts, `logWrites` counts writes
to `caption-upload.log` (the initial `writeFileSync` and each
`appendFileSync`). -/

inductive UploadOutcome where
  | ok
  | apiFail (errors : Option (List String))
  | exn (message : String)
deriving DecidableEq

structure CaptionState where
  uploads : Nat
  logWrites : Nat
  successCount : Nat
  failCount : Nat
deriving DecidableEq

/-- One iteration of the upload loop (`src/upload-captions.js` lines
212-261): in dry-run only count; otherwise attempt the upload and log one
line on success, eight on a structured failure, five on a thrown fault. -/
def captionStep (dryRun : Bool) (r : UploadOutcome) (st : CaptionState) : CaptionState :=
  if dryRun then { st with successCount := st.successCount + 1 }
  else
    match r with
    | .ok => ⟨st.uploads + 1, st.logWrites + 1, st.successCount + 1, st.failCount⟩
    | .apiFail _ => ⟨st.uploads + 1, st.logWrites + 8, st.successCount, st.failCount + 1⟩
    | .exn _ => ⟨st.uploads + 1, st.logWrites + 5, st.successCount, st.failCount + 1⟩

def captionLoop (dryRun : Bool) (upload : Nat → UploadOutcome) :
    Nat → List CaptionMatch → CaptionState → CaptionState
  | _, [], st => st
  | i, _ :: rest, st =>
    captionLoop dryRun upload (i + 1) rest (captionStep dryRun (upload i) st)

/-- Embeds `main` of `src/upload-captions.js` (console output elided): unless in
dry-run, initialise the log (one `writeFileSync` plus two `log` calls);
match; return early when nothing matched; run the upload loop; unless in
dry-run, append the summary block (five fixed lines plus one per unmatched
file). -/
def runCaptionTool (dryRun : Bool) (upload : Nat → UploadOutcome)
    (srtFiles : List String) (migrationResults : List ResultEntry) : CaptionState :=
  let initLogWrites := if dryRun then 0 else 3
  let mu := matchCaptions srtFiles migrationResults
  if mu.1.isEmpty then ⟨0, initLogWrites, 0, 0⟩
  else
    let fin := captionLoop dryRun upload 0 mu.1 ⟨0, initLogWrites, 0, 0⟩
    if dryRun then fin
    else { fin with logWrites := fin.logWrites + 5 + mu.2.length }

/-! ## Specification-side descriptions

These definitions restate, in closed form, what the loops above are claimed
to produce; the theorems below prove the loop equal to them. -/

/-- The videos the engine is expected to submit: those whose id the frozen
pre-run set does not contain, in manifest order. -/
def pendingOf (already : List String) (videos : List Video) : List Video :=
  videos.filter fun v => !(already.contains v.spotlightrId)

/-- The entries the engine is expected to append, in order. -/
def newEntriesOf (already : List String) (submit : Nat → Video → SubmitResult)
    (stamp : Nat → String) : Nat → List Video → List ResultEntry
  | _, [] => []
  | i, v :: rest =>
    if already.contains v.spotlightrId then
      newEntriesOf already submit stamp (i + 1) rest
    else
      entryFor (submit i v) v (stamp i) :: newEntriesOf already submit stamp (i + 1) rest

/-- Does `l` start with the segment `pat`? -/
def startsWithSeg : List Char → List Char → Bool
  | [], _ => true
  | _ :: _, [] => false
  | p :: ps, c :: cs => p == c && startsWithSeg ps cs

/-- Does `l` contain the contiguous segment `pat`? -/
def containsSeg (pat : List Char) : List Char → Bool
  | [] => startsWithSeg pat []
  | c :: rest => startsWithSeg pat (c :: rest) || containsSeg pat rest

/-- The string ends with exactly one line feed: its final character is
`'\n'` and the character before it, when present, is not. -/
def endsOneLf (s : String) : Bool :=
  match s.data.reverse with
  | '\n' :: c :: _ => !(c == '\n')
  | ['\n'] => true
  | _ => false

/-- The canonical shape `collapseWs` leaves behind: every whitespace
character is a plain space, and no two adjacent characters are both
whitespace. -/
def WsCanon (l : List Char) : Prop :=
  (∀ c ∈ l, jsWs c = true → c = ' ') ∧ l.Chain' fun a b => ¬(jsWs a = true ∧ jsWs b = true)

/-! ## Engine lemmas -/

theorem entryFor_spotlightrId (r : SubmitResult) (v : Video) (ts : String) :
    (entryFor r v ts).spotlightrId = v.spotlightrId := by
  cases r <;> rfl

/-- Membership in the frozen `alreadyMigrated` set is exactly the spec's
`isCompleted` predicate on the loaded ledger. -/
theorem contains_alreadyMigratedOf (prev : List ResultEntry) (id : String) :
    (alreadyMigratedOf prev).contains id = isCompleted prev id := by
  rw [Bool.eq_iff_iff]
  simp only [alreadyMigratedOf, isCompleted, List.contains_eq_any_beq, List.any_eq_true,
    List.mem_map, List.mem_filter, Bool.and_eq_true, beq_iff_eq]
  constructor
  · rintro ⟨x, ⟨e, ⟨he, hs⟩, rfl⟩, hid⟩
    exact ⟨e, he, hs, hid.symm⟩
  · rintro ⟨e, he, hs, hid⟩
    exact ⟨e.spotlightrId, ⟨e, ⟨he, hs⟩, rfl⟩, hid.symm⟩

theorem engineLoop_results_false (already : List String)
    (submit : Nat → Video → SubmitResult) (stamp : Nat → String) :
    ∀ (videos : List Video) (i : Nat) (st : EngineState),
      (engineLoop false already submit stamp i videos st).results
        = st.results ++ newEntriesOf already submit stamp i videos := by
  intro videos
  induction videos with
  | nil => intro i st; simp [engineLoop, newEntriesOf]
  | cons v rest ih =>
    intro i st
    by_cases h : v.spotlightrId ∈ already
    · simp [engineLoop, stepVideo, h, newEntriesOf, ih]
    · simp [engineLoop, stepVideo, h, newEntriesOf, ih, List.append_assoc]

theorem engineLoop_submitted_false (already : List String)
    (submit : Nat → Video → SubmitResult) (stamp : Nat → String) :
    ∀ (videos : List Video) (i : Nat) (st : EngineState),
      (engineLoop false already submit stamp i videos st).submitted
        = st.submitted ++ pendingOf already videos := by
  intro videos
  induction videos with
  | nil => intro i st; simp [engineLoop, pendingOf]
  | cons v rest ih =>
    intro i st
    by_cases h : v.spotlightrId ∈ already
    · simp [engineLoop, stepVideo, h, pendingOf, ih]
    · simp [engineLoop, stepVideo, h, pendingOf, ih, List.append_assoc]

theorem engineLoop_persisted_false (already : List String)
    (submit : Nat → Video → SubmitResult) (stamp : Nat → String) :
    ∀ (videos : List Video) (i : Nat) (st : EngineState),
      st.persisted = st.results →
      (engineLoop false already submit stamp i videos st).persisted
        = (engineLoop false already submit stamp i videos st).results := by
  intro videos
  induction videos with
  | nil => intro i st h; simpa [engineLoop] using h
  | cons v rest ih =>
    intro i st h
    by_cases hc : v.spotlightrId ∈ already
    · exact ih _ _ (by simp [stepVideo, hc, h])
    · exact ih _ _ (by simp [stepVideo, hc])

theorem engineLoop_frame_true (already : List String)
    (submit : Nat → Video → SubmitResult) (stamp : Nat → String) :
    ∀ (videos : List Video) (i : Nat) (st : EngineState),
      (engineLoop true already submit stamp i videos st).results = st.results
      ∧ (engineLoop true already submit stamp i videos st).persisted = st.persisted
      ∧ (engineLoop true already submit stamp i videos st).writes = st.writes
      ∧ (engineLoop true already submit stamp i videos st).submitted = st.submitted := by
  intro videos
  induction videos with
  | nil => intro i st; simp [engineLoop]
  | cons v rest ih =>
    intro i st
    by_cases h : v.spotlightrId ∈ already
    · simpa [engineLoop, stepVideo, h] using ih (i + 1) { st with skipCount := st.skipCount + 1 }
    · simpa [engineLoop, stepVideo, h] using
        ih (i + 1) { st with successCount := st.successCount + 1 }

theorem engineLoop_counts (dryRun : Bool) (already : List String)
    (submit : Nat → Video → SubmitResult) (stamp : Nat → String) :
    ∀ (videos : List Video) (i : Nat) (st : EngineState),
      (engineLoop dryRun already submit stamp i videos st).successCount
        + (engineLoop dryRun already submit stamp i videos st).skipCount
        + (engineLoop dryRun already submit stamp i videos st).failCount
      = st.successCount + st.skipCount + st.failCount + videos.length := by
  intro videos
  induction videos with
  | nil => intro i st; simp [engineLoop]
  | cons v rest ih =>
    intro i st
    simp only [engineLoop]
    rw [ih]
    by_cases h : v.spotlightrId ∈ already
    · simp [stepVideo, h]
      omega
    · by_cases hd : dryRun
      · simp [stepVideo, h, hd]
        omega
      · cases hr : submit i v <;> simp [stepVideo, h, hd, hr] <;> omega

theorem newEntriesOf_covers (already : List String)
    (submit : Nat → Video → SubmitResult) (stamp : Nat → String) :
    ∀ (videos : List Video) (i : Nat) (v : Video), v ∈ videos →
      v.spotlightrId ∉ already →
      ∃ e ∈ newEntriesOf already submit stamp i videos,
        e.spotlightrId = v.spotlightrId := by
  intro videos
  induction videos with
  | nil => intro i v hv; simp at hv
  | cons w rest ih =>
    intro i v hv hnc
    rcases List.mem_cons.mp hv with h | h
    · subst h
      refine ⟨entryFor (submit i v) v (stamp i), ?_, entryFor_spotlightrId _ _ _⟩
      simp [newEntriesOf, hnc]
    · obtain ⟨e, he, hid⟩ := ih (i + 1) v h hnc
      refine ⟨e, ?_, hid⟩
      by_cases hc : w.spotlightrId ∈ already <;> simp [newEntriesOf, hc, he]

theorem length_filter_split {α : Type} (p : α → Bool) (l : List α) :
    (l.filter p).length + (l.filter fun a => !(p a)).length = l.length := by
  induction l with
  | nil => rfl
  | cons a l ih =>
    by_cases h : p a <;> simp [List.filter_cons, h] <;> omega

theorem pendingOf_alreadyMigratedOf (prev : List ResultEntry) (videos : List Video) :
    pendingOf (alreadyMigratedOf prev) videos
      = videos.filter fun v => !(isCompleted prev v.spotlightrId) := by
  unfold pendingOf
  exact List.filter_congr fun v _ => by rw [contains_alreadyMigratedOf]

/-- The trace of remote submissions of a non-dry run: exactly the eligible
videos whose id the loaded ledger does not mark as succeeded, in order. -/
theorem runEngine_submitted (filterProject : Option String)
    (submit : Nat → Video → SubmitResult) (stamp : Nat → String)
    (records : List Row) (prev : List ResultEntry) :
    (runEngine false filterProject submit stamp records prev).submitted
      = (extractMigratableVideos filterProject records).filter
          fun v => !(isCompleted prev v.spotlightrId) := by
  have h := engineLoop_submitted_false (alreadyMigratedOf prev) submit stamp
    (extractMigratableVideos filterProject records) 0 (initState prev)
  simpa [runEngine, initState, pendingOf_alreadyMigratedOf] using h

/-- The final content of the results file after a non-dry run: the loaded
previous results followed by the newly recorded entries. -/
theorem runEngine_persisted (filterProject : Option String)
    (submit : Nat → Video → SubmitResult) (stamp : Nat → String)
    (records : List Row) (prev : List ResultEntry) :
    (runEngine false filterProject submit stamp records prev).persisted
      = prev ++ newEntriesOf (alreadyMigratedOf prev) submit stamp 0
          (extractMigratableVideos filterProject records) := by
  have hp := engineLoop_persisted_false (alreadyMigratedOf prev) submit stamp
    (extractMigratableVideos filterProject records) 0 (initState prev) rfl
  have hr := engineLoop_results_false (alreadyMigratedOf prev) submit stamp
    (extractMigratableVideos filterProject records) 0 (initState prev)
  simpa [runEngine, initState] using hp.trans hr

/-- An id not marked successful in the loaded ledger is not in the frozen
skip set. -/
theorem not_mem_alreadyMigratedOf {prev : List ResultEntry} {id : String}
    (h : isCompleted prev id = false) : id ∉ alreadyMigratedOf prev := by
  intro hm
  have : (alreadyMigratedOf prev).contains id = true := List.elem_iff.mpr hm
  rw [contains_alreadyMigratedOf, h] at this
  exact Bool.false_ne_true this

/-- Claim C1 (idempotent resume): with dry-run off, the engine invokes
`submit` once per eligible record whose id the loaded ledger does not mark
`Success` — `N − K` invocations where `N` is the number of eligible records
and `K` the number of them already marked `Success` — and the final
persisted ledger extends the prior one unchanged and contains an entry for
every eligible record's id. -/
theorem claim1_idempotent_resume (filterProject : Option String)
    (submit : Nat → Video → SubmitResult) (stamp : Nat → String)
    (records : List Row) (prev : List ResultEntry) :
    (runEngine false filterProject submit stamp records prev).submitted.length
      = (extractMigratableVideos filterProject records).length
        - ((extractMigratableVideos filterProject records).filter
            fun v => isCompleted prev v.spotlightrId).length
    ∧ (∃ newEntries,
        (runEngine false filterProject submit stamp records prev).persisted
          = prev ++ newEntries)
    ∧ ∀ v ∈ extractMigratableVideos filterProject records,
        ∃ e ∈ (runEngine false filterProject submit stamp records prev).persisted,
          e.spotlightrId = v.spotlightrId := by
  refine ⟨?_, ⟨_, runEngine_persisted filterProject submit stamp records prev⟩, ?_⟩
  · rw [runEngine_submitted]
    have := length_filter_split (fun v => isCompleted prev v.spotlightrId)
      (extractMigratableVideos filterProject records)
    omega
  · intro v hv
    rw [runEngine_persisted]
    cases hc : isCompleted prev v.spotlightrId with
    | true =>
      obtain ⟨e, he, hbe⟩ := List.any_eq_true.mp hc
      rw [Bool.and_eq_true, beq_iff_eq] at hbe
      exact ⟨e, List.mem_append_left _ he, hbe.2⟩
    | false =>
      obtain ⟨e, he, hid⟩ := newEntriesOf_covers (alreadyMigratedOf prev) submit stamp
        (extractMigratableVideos filterProject records) 0 v hv
        (not_mem_alreadyMigratedOf hc)
      exact ⟨e, List.mem_append_right _ he, hid⟩

/-- Claim C3, counterexample: the ledger holds a `Failure` entry for id
`"a"`; re-running the engine on that record submits it again and appends a
new entry, leaving two entries with the same external id — the recording
is a push, not an upsert. -/
theorem claim3_counterexample :
    (runEngine false none (fun _ _ => .ok (some "u9")) (fun _ => "t1")
        [⟨"VidA", "http://x", "p", "a", ""⟩]
        [⟨"a", "VidA", "p", "http://x", none, false, some "boom", "t0"⟩]).persisted
      = [⟨"a", "VidA", "p", "http://x", none, false, some "boom", "t0"⟩,
         ⟨"a", "VidA", "p", "http://x", some "u9", true, none, "t1"⟩]
    ∧ ((runEngine false none (fun _ _ => .ok (some "u9")) (fun _ => "t1")
        [⟨"VidA", "http://x", "p", "a", ""⟩]
        [⟨"a", "VidA", "p", "http://x", none, false, some "boom", "t0"⟩]).persisted.filter
          fun e => e.spotlightrId == "a").length = 2 := by
  decide

/-- Claim C3, amended: recording appends — the final ledger always extends
the prior ledger, old entries are never overwritten or removed, so a
resubmitted `Failure` id ends up with its old entry alongside the new one
and duplicates per external id can accumulate; an id already marked
`Success` is never resubmitted, while every other eligible record is
submitted. -/
theorem claim3_amended (filterProject : Option String)
    (submit : Nat → Video → SubmitResult) (stamp : Nat → String)
    (records : List Row) (prev : List ResultEntry) :
    (∃ newEntries,
      (runEngine false filterProject submit stamp records prev).persisted
        = prev ++ newEntries)
    ∧ (runEngine false filterProject submit stamp records prev).submitted
        = (extractMigratableVideos filterProject records).filter
            fun v => !(isCompleted prev v.spotlightrId) :=
  ⟨⟨_, runEngine_persisted filterProject submit stamp records prev⟩,
   runEngine_submitted filterProject submit stamp records prev⟩

/-- Claim C4, counterexample: on the two-row scenario of spec §8 the code's
summary is {succeeded 1, skipped 0, failed 0, total 1} — the ineligible
`DELETED` row is dropped before the loop, appears in no tally, and the
printed Total is the eligible count 1, not 2. -/
theorem claim4_counterexample :
    (extractMigratableVideos none
        [⟨"A", "http://x/a.mp4", "10", "1", ""⟩,
         ⟨"B", "DELETED", "10", "2", ""⟩]).length = 1
    ∧ ¬ (extractMigratableVideos none
        [⟨"A", "http://x/a.mp4", "10", "1", ""⟩,
         ⟨"B", "DELETED", "10", "2", ""⟩]).length = 2
    ∧ (runEngine false none (fun _ _ => .ok (some "u1")) (fun _ => "ts")
        [⟨"A", "http://x/a.mp4", "10", "1", ""⟩,
         ⟨"B", "DELETED", "10", "2", ""⟩] []).successCount = 1
    ∧ (runEngine false none (fun _ _ => .ok (some "u1")) (fun _ => "ts")
        [⟨"A", "http://x/a.mp4", "10", "1", ""⟩,
         ⟨"B", "DELETED", "10", "2", ""⟩] []).skipCount = 0
    ∧ (runEngine false none (fun _ _ => .ok (some "u1")) (fun _ => "ts")
        [⟨"A", "http://x/a.mp4", "10", "1", ""⟩,
         ⟨"B", "DELETED", "10", "2", ""⟩] []).failCount = 0 := by
  decide

/-- Claim C4, amended: the summary tallies succeeded, skipped-already-done
and failed over the eligible records only, and they always sum to the
eligible count, which is also the printed Total; ineligible records are
dropped before the loop and counted nowhere.  On the §8 scenario the
summary is {succeeded 1, skipped 0, failed 0, total 1} and id "1" is
recorded with outcome Success and remoteId "u1". -/
theorem claim4_amended :
    (∀ (dryRun : Bool) (filterProject : Option String)
       (submit : Nat → Video → SubmitResult) (stamp : Nat → String)
       (records : List Row) (prev : List ResultEntry),
      (runEngine dryRun filterProject submit stamp records prev).successCount
        + (runEngine dryRun filterProject submit stamp records prev).skipCount
        + (runEngine dryRun filterProject submit stamp records prev).failCount
      = (extractMigratableVideos filterProject records).length)
    ∧ (runEngine false none (fun _ _ => .ok (some "u1")) (fun _ => "ts")
        [⟨"A", "http://x/a.mp4", "10", "1", ""⟩,
         ⟨"B", "DELETED", "10", "2", ""⟩] []).persisted
      = [⟨"1", "A", "10", "http://x/a.mp4", some "u1", true, none, "ts"⟩]
    ∧ (runEngine false none (fun _ _ => .ok (some "u1")) (fun _ => "ts")
        [⟨"A", "http://x/a.mp4", "10", "1", ""⟩,
         ⟨"B", "DELETED", "10", "2", ""⟩] []).successCount = 1
    ∧ (extractMigratableVideos none
        [⟨"A", "http://x/a.mp4", "10", "1", ""⟩,
         ⟨"B", "DELETED", "10", "2", ""⟩]).length = 1 := by
  refine ⟨fun dryRun filterProject submit stamp records prev => ?_, by decide, by decide, by decide⟩
  simpa [runEngine, initState] using engineLoop_counts dryRun (alreadyMigratedOf prev)
    submit stamp (extractMigratableVideos filterProject records) 0 (initState prev)

/-- Claim C9 (implicit): the already-migrated skip set is frozen at run
start — which records are submitted depends only on the ledger loaded
before the loop, so two manifest records sharing an `externalId` not yet
marked `Success` are both submitted in the same run (a `Success` recorded
for the first does not make the second skip). -/
theorem claim9_frozen_skip_set :
    (∀ (filterProject : Option String) (submit : Nat → Video → SubmitResult)
       (stamp : Nat → String) (records : List Row) (prev : List ResultEntry),
      (runEngine false filterProject submit stamp records prev).submitted
        = (extractMigratableVideos filterProject records).filter
            fun v => !(isCompleted prev v.spotlightrId))
    ∧ (runEngine false none (fun _ _ => .ok (some "u1")) (fun _ => "ts")
        [⟨"A", "http://x/a.mp4", "10", "dup", ""⟩,
         ⟨"A2", "http://x/a2.mp4", "10", "dup", ""⟩] []).submitted
      = [⟨"A", "http://x/a.mp4", "10", "dup", ""⟩,
         ⟨"A2", "http://x/a2.mp4", "10", "dup", ""⟩] := by
  exact ⟨fun fp submit stamp records prev => runEngine_submitted fp submit stamp records prev,
    by decide⟩

/-! ## Dry-run purity -/

theorem captionLoop_frame_true (upload : Nat → UploadOutcome) :
    ∀ (ms : List CaptionMatch) (i : Nat) (st : CaptionState),
      (captionLoop true upload i ms st).uploads = st.uploads
      ∧ (captionLoop true upload i ms st).logWrites = st.logWrites := by
  intro ms
  induction ms with
  | nil => intro i st; simp [captionLoop]
  | cons m rest ih =>
    intro i st
    simpa [captionLoop, captionStep] using
      ih (i + 1) { st with successCount := st.successCount + 1 }

/-- Claim C2 (dry-run purity): with dry-run on, the migration engine never
invokes `submit` and never writes the results file (so it is byte-identical
to its pre-run state), and the caption tool never invokes `uploadCaption`
and never writes the log file. -/
theorem claim2_dry_run_purity (filterProject : Option String)
    (submit : Nat → Video → SubmitResult) (stamp : Nat → String)
    (records : List Row) (prev : List ResultEntry)
    (upload : Nat → UploadOutcome) (srtFiles : List String)
    (migrationResults : List ResultEntry) :
    (runEngine true filterProject submit stamp records prev).submitted = []
    ∧ (runEngine true filterProject submit stamp records prev).writes = 0
    ∧ (runEngine true filterProject submit stamp records prev).persisted = prev
    ∧ (runCaptionTool true upload srtFiles migrationResults).uploads = 0
    ∧ (runCaptionTool true upload srtFiles migrationResults).logWrites = 0 := by
  obtain ⟨-, hp, hw, hs⟩ := engineLoop_frame_true (alreadyMigratedOf prev) submit stamp
    (extractMigratableVideos filterProject records) 0 (initState prev)
  refine ⟨hs, hw, hp, ?_⟩
  unfold runCaptionTool
  by_cases h : (matchCaptions srtFiles migrationResults).1.isEmpty
  · simp [h]
  · obtain ⟨hu, hl⟩ := captionLoop_frame_true upload
      (matchCaptions srtFiles migrationResults).1 0 ⟨0, 0, 0, 0⟩
    simp only [h, if_true, if_pos rfl, Bool.false_eq_true, if_false]
    exact ⟨hu, hl⟩

/-! ## Matcher lemmas -/

theorem lookupName_insertFirst (m : List (String × ResultEntry)) (key k : String)
    (r : ResultEntry) :
    lookupName (insertFirst m key r) k
      = (lookupName m k).or (if key == k then some r else none) := by
  unfold insertFirst lookupName
  by_cases hk : key = k
  · subst hk
    by_cases hins : (m.any fun p => p.1 == key) = true
    · obtain ⟨p, hp, hpk⟩ := List.any_eq_true.mp hins
      have hsome : (m.find? fun p => p.1 == key).isSome = true :=
        List.find?_isSome.mpr ⟨p, hp, hpk⟩
      obtain ⟨q, hq⟩ := Option.isSome_iff_exists.mp hsome
      simp [hins, hq]
    · have hnone : (m.find? fun p => p.1 == key) = none := by
        rw [List.find?_eq_none]
        intro p hp hpk
        exact hins (List.any_eq_true.mpr ⟨p, hp, hpk⟩)
      simp [hins, List.find?_append, hnone]
  · have hkf : (key == k) = false := beq_eq_false_iff_ne.mpr hk
    by_cases hins : (m.any fun p => p.1 == key) = true
    · simp [hins, hkf]
    · simp [hins, List.find?_append, hkf]

theorem lookupName_foldl (rs : List ResultEntry) :
    ∀ (m : List (String × ResultEntry)) (k : String),
      lookupName (rs.foldl (fun m r => insertFirst m (normalize r.name) r) m) k
        = (lookupName m k).or (rs.find? fun r => normalize r.name == k) := by
  induction rs with
  | nil => intro m k; simp [lookupName]
  | cons r rest ih =>
    intro m k
    rw [List.foldl_cons, ih, lookupName_insertFirst, Option.or_assoc, List.find?_cons]
    by_cases hk : (normalize r.name == k) = true <;> simp [hk]

/-- The first-seen map lookup is exactly "first ledger entry whose
normalized name equals the key". -/
theorem lookupName_buildNameMap (rs : List ResultEntry) (k : String) :
    lookupName (buildNameMap rs) k = rs.find? fun r => normalize r.name == k := by
  have h := lookupName_foldl rs [] k
  simpa [buildNameMap, lookupName] using h

theorem matchLoop_spec (m : List (String × ResultEntry)) :
    ∀ (fs : List String) (acc1 : List CaptionMatch) (acc2 : List String),
      matchLoop m fs acc1 acc2
        = (acc1 ++ fs.filterMap fun f => (lookupName m (normalize f)).map
            fun v => ⟨f, v.name, v.cloudflareUid, v.spotlightrId⟩,
           acc2 ++ fs.filter fun f => (lookupName m (normalize f)).isNone) := by
  intro fs
  induction fs with
  | nil => intro acc1 acc2; simp [matchLoop]
  | cons f rest ih =>
    intro acc1 acc2
    cases hf : lookupName m (normalize f) with
    | some v =>
      simp [matchLoop, hf, ih, List.filterMap_cons, List.filter_cons, List.append_assoc]
    | none =>
      simp [matchLoop, hf, ih, List.filterMap_cons, List.filter_cons, List.append_assoc]

/-- Closed form of `matchCaptions`. -/
theorem matchCaptions_eq (srtFiles : List String) (rs : List ResultEntry) :
    matchCaptions srtFiles rs
      = (srtFiles.filterMap fun f =>
          (rs.find? fun r => normalize r.name == normalize f).map
            fun v => ⟨f, v.name, v.cloudflareUid, v.spotlightrId⟩,
         srtFiles.filter fun f =>
          (rs.find? fun r => normalize r.name == normalize f).isNone) := by
  unfold matchCaptions
  rw [matchLoop_spec]
  simp only [lookupName_buildNameMap, List.nil_append]

theorem filterMap_tag_eq_filter {α : Type} (G : α → Option ResultEntry) (l : List α) :
    l.filterMap (fun a => (G a).map fun _ => a) = l.filter fun a => (G a).isSome := by
  induction l with
  | nil => rfl
  | cons a l ih =>
    cases h : G a <;> simp [List.filterMap_cons, List.filter_cons, h, ih]

/-- Claim C7 (first-seen collision policy): each local file is matched to
the first ledger entry, in ledger order, whose normalized name equals the
file's normalized name — later duplicates are shadowed, each file produces
at most one match, and on the duplicate-"Intro" scenario the single match
deterministically carries the first entry's uid. -/
theorem claim7_first_seen_collision (srtFiles : List String) (rs : List ResultEntry) :
    (matchCaptions srtFiles rs).1
      = (srtFiles.filterMap fun f =>
          (rs.find? fun r => normalize r.name == normalize f).map
            fun v => ⟨f, v.name, v.cloudflareUid, v.spotlightrId⟩)
    ∧ (matchCaptions ["Intro.srt"]
        [⟨"1", "Intro", "p", "u", some "uidFirst", true, none, "t"⟩,
         ⟨"2", "Intro", "p", "u", some "uidSecond", true, none, "t"⟩]).1
      = [⟨"Intro.srt", "Intro", some "uidFirst", "1"⟩]
    ∧ (matchCaptions ["Intro.srt"]
        [⟨"1", "Intro", "p", "u", some "uidFirst", true, none, "t"⟩,
         ⟨"2", "Intro", "p", "u", some "uidSecond", true, none, "t"⟩]).2 = [] := by
  refine ⟨?_, by decide, by decide⟩
  rw [matchCaptions_eq]

/-- Claim C10 (implicit, matcher partition): `matchCaptions` distributes the
input files, in order, into `matched` and `unmatched` — every file lands in
exactly one of the two, so the lengths add up to the input length.  (The
embedding is pure, mirroring the source: the loop only reads its inputs and
builds fresh arrays, so no input is mutated.) -/
theorem claim10_matcher_partition (srtFiles : List String) (rs : List ResultEntry) :
    (matchCaptions srtFiles rs).1.map (·.srtFile)
      = (srtFiles.filter fun f =>
          (rs.find? fun r => normalize r.name == normalize f).isSome)
    ∧ (matchCaptions srtFiles rs).2
      = (srtFiles.filter fun f =>
          !(rs.find? fun r => normalize r.name == normalize f).isSome)
    ∧ (matchCaptions srtFiles rs).1.length + (matchCaptions srtFiles rs).2.length
      = srtFiles.length := by
  have h1 : (matchCaptions srtFiles rs).1
      = srtFiles.filterMap fun f =>
          (rs.find? fun r => normalize r.name == normalize f).map
            fun v => ⟨f, v.name, v.cloudflareUid, v.spotlightrId⟩ := by
    rw [matchCaptions_eq]
  have h2 : (matchCaptions srtFiles rs).2
      = srtFiles.filter fun f =>
          (rs.find? fun r => normalize r.name == normalize f).isNone := by
    rw [matchCaptions_eq]
  have hcongr : (srtFiles.filter fun f =>
        (rs.find? fun r => normalize r.name == normalize f).isNone)
      = srtFiles.filter fun f =>
          !(rs.find? fun r => normalize r.name == normalize f).isSome :=
    List.filter_congr fun f _ => by
      cases rs.find? fun r => normalize r.name == normalize f <;> rfl
  have hmap : (matchCaptions srtFiles rs).1.map (·.srtFile)
      = srtFiles.filter fun f =>
          (rs.find? fun r => normalize r.name == normalize f).isSome := by
    rw [h1, List.map_filterMap]
    have htag := filterMap_tag_eq_filter
      (fun f => rs.find? fun r => normalize r.name == normalize f) srtFiles
    rw [← htag]
    exact List.filterMap_congr fun f _ => by
      cases rs.find? fun r => normalize r.name == normalize f <;> rfl
  refine ⟨hmap, by rw [h2, hcongr], ?_⟩
  have hlen1 : (matchCaptions srtFiles rs).1.length
      = (srtFiles.filter fun f =>
          (rs.find? fun r => normalize r.name == normalize f).isSome).length := by
    rw [← hmap, List.length_map]
  have hsplit := length_filter_split
    (fun f => (rs.find? fun r => normalize r.name == normalize f).isSome) srtFiles
  rw [hlen1, h2, hcongr]
  omega

/-! ## Ledger load behaviour -/

/-- Claim C8, counterexample: on a corrupt ledger file `migrate.js` silently
returns the empty list (no `CorruptLedger` error is surfaced), while
`upload-captions.js` fails with a propagated parse fault; and on a missing
file the caption tool exits instead of returning an empty sequence — the
two tools do not apply one consistent policy. -/
theorem claim8_counterexample :
    loadPreviousResults .corrupt = []
    ∧ loadMigrationResults .corrupt = .error .parseFault
    ∧ loadMigrationResults .absent = .error .missingResultsFile :=
  ⟨rfl, rfl, rfl⟩

/-- Claim C8, amended: `migrate.js` treats both a missing and an
unparseable results file as an empty ledger, silently; `upload-captions.js`
aborts with a fatal exit when the file is missing and propagates the parse
exception when it is unparseable — the two tools apply different load
policies. -/
theorem claim8_amended :
    (loadPreviousResults .absent = []
      ∧ loadPreviousResults .corrupt = []
      ∧ ∀ es, loadPreviousResults (.parsed es) = es)
    ∧ (loadMigrationResults .absent = .error .missingResultsFile
      ∧ loadMigrationResults .corrupt = .error .parseFault
      ∧ ∀ es, loadMigrationResults (.parsed es) = .ok (es.filter (·.success))) :=
  ⟨⟨rfl, rfl, fun _ => rfl⟩, rfl, rfl, fun _ => rfl⟩

/-! ## Normalizer lemmas -/

theorem dropWhile_head_false {p : Char → Bool} :
    ∀ {l : List Char} {c : Char} {t : List Char}, l.dropWhile p = c :: t → p c = false := by
  intro l
  induction l with
  | nil => intro c t h; simp at h
  | cons a rest ih =>
    intro c t h
    rw [List.dropWhile_cons] at h
    by_cases ha : p a = true
    · exact ih (by rwa [if_pos ha] at h)
    · rw [if_neg ha] at h
      cases h
      exact Bool.eq_false_iff.mpr ha

theorem dropWhile_getLast? {p : Char → Bool} :
    ∀ {l : List Char}, l.dropWhile p ≠ [] → (l.dropWhile p).getLast? = l.getLast? := by
  intro l
  induction l with
  | nil => intro h; simp at h
  | cons a rest ih =>
    intro h
    rw [List.dropWhile_cons] at h ⊢
    by_cases ha : p a = true
    · rw [if_pos ha] at h ⊢
      cases hr : rest with
      | nil => rw [hr] at h; simp at h
      | cons b t =>
        rw [← hr, ih h, hr, List.getLast?_cons_cons]
    · rw [if_neg ha]

theorem dropWhile_isSuffix {p : Char → Bool} : ∀ (l : List Char), l.dropWhile p <:+ l := by
  intro l
  induction l with
  | nil => exact List.nil_suffix
  | cons a rest ih =>
    rw [List.dropWhile_cons]
    by_cases ha : p a = true
    · rw [if_pos ha]
      exact ih.trans (List.suffix_cons a rest)
    · rw [if_neg ha]

theorem wsCanon_suffix {l l' : List Char} (h : WsCanon l) (hs : l' <:+ l) : WsCanon l' :=
  ⟨fun c hc => h.1 c (hs.subset hc), h.2.suffix hs⟩

theorem wsCanon_reverse {l : List Char} (h : WsCanon l) : WsCanon l.reverse := by
  refine ⟨fun c hc => h.1 c (List.mem_reverse.mp hc), ?_⟩
  rw [List.chain'_reverse]
  exact h.2.imp fun a b hab => fun ⟨h1, h2⟩ => hab ⟨h2, h1⟩

theorem wsCanon_trimWs {l : List Char} (h : WsCanon l) : WsCanon (trimWs l) := by
  unfold trimWs
  exact wsCanon_reverse (wsCanon_suffix (wsCanon_reverse
    (wsCanon_suffix h (dropWhile_isSuffix l))) (dropWhile_isSuffix _))

theorem collapseAux_true_head :
    ∀ (l : List Char) (c : Char), (collapseAux true l).head? = some c → jsWs c = false := by
  intro l
  induction l with
  | nil => intro c h; simp [collapseAux] at h
  | cons a rest ih =>
    intro c h
    by_cases ha : jsWs a = true
    · rw [collapseAux, if_pos ha, if_pos rfl] at h
      exact ih c h
    · rw [collapseAux, if_neg ha] at h
      rw [List.head?_cons] at h
      cases h
      exact Bool.eq_false_iff.mpr ha

theorem collapseAux_canon : ∀ (l : List Char) (b : Bool), WsCanon (collapseAux b l) := by
  intro l
  induction l with
  | nil => intro b; exact ⟨fun c hc => absurd hc (List.not_mem_nil c), List.chain'_nil⟩
  | cons a rest ih =>
    intro b
    by_cases ha : jsWs a = true
    · cases b with
      | true =>
        rw [collapseAux, if_pos ha, if_pos rfl]
        exact ih true
      | false =>
        rw [collapseAux, if_pos ha, if_neg Bool.false_ne_true]
        refine ⟨?_, ?_⟩
        · intro c hc hws
          rcases List.mem_cons.mp hc with h | h
          · exact h
          · exact (ih true).1 c h hws
        · rw [List.chain'_cons']
          refine ⟨fun y hy => fun ⟨_, hwy⟩ => ?_, (ih true).2⟩
          rw [collapseAux_true_head rest y (by simpa using hy)] at hwy
          exact Bool.false_ne_true hwy
    · have hstep : collapseAux b (a :: rest) = a :: collapseAux false rest := by
        cases b <;> rw [collapseAux, if_neg ha]
      rw [hstep]
      refine ⟨?_, ?_⟩
      · intro c hc hws
        rcases List.mem_cons.mp hc with h | h
        · exact absurd (h ▸ hws) (fun hx => ha hx)
        · exact (ih false).1 c h hws
      · rw [List.chain'_cons']
        exact ⟨fun y _ => fun ⟨hwa, _⟩ => ha hwa, (ih false).2⟩

theorem wsCanon_collapse_id : ∀ (l : List Char), WsCanon l → collapseAux false l = l := by
  intro l
  induction l with
  | nil => intro _; rfl
  | cons a rest ih =>
    rintro ⟨hmem, hchain⟩
    by_cases ha : jsWs a = true
    · have ha' : a = ' ' := hmem a (List.mem_cons_self a rest) ha
      cases rest with
      | nil =>
        subst ha'
        rfl
      | cons d rest2 =>
        have hd : jsWs d = false := by
          rw [List.chain'_cons'] at hchain
          have hrel := hchain.1 d (by simp)
          cases hdd : jsWs d
          · rfl
          · exact absurd ⟨ha, hdd⟩ hrel
        have htail2 : collapseAux false rest2 = rest2 := by
          have htail : collapseAux false (d :: rest2) = d :: rest2 :=
            ih ⟨fun c hc hws => hmem c (List.mem_cons_of_mem a hc) hws, hchain.tail⟩
          simpa [collapseAux, hd] using htail
        simp [collapseAux, ha, ha', hd, htail2]
    · have htail : collapseAux false rest = rest :=
        ih ⟨fun c hc hws => hmem c (List.mem_cons_of_mem a hc) hws, hchain.tail⟩
      rw [collapseAux, if_neg ha, htail]

theorem trimWs_head_false {l : List Char} {c : Char} {t : List Char}
    (h : trimWs l = c :: t) : jsWs c = false := by
  unfold trimWs at h
  set u := (l.dropWhile jsWs).reverse.dropWhile jsWs with hu
  have hune : u ≠ [] := by
    intro hnil
    rw [hnil] at h
    exact List.cons_ne_nil c t h.symm
  have h1 : u.reverse.head? = some c := by rw [h]; rfl
  rw [List.head?_reverse] at h1
  have h2 : u.getLast? = (l.dropWhile jsWs).reverse.getLast? := dropWhile_getLast? hune
  rw [h2, List.getLast?_reverse] at h1
  cases hw : l.dropWhile jsWs with
  | nil => rw [hw] at h1; simp at h1
  | cons d t' =>
    rw [hw, List.head?_cons] at h1
    cases h1
    exact dropWhile_head_false hw

theorem trimWs_getLast_false {l : List Char} {c : Char}
    (h : (trimWs l).getLast? = some c) : jsWs c = false := by
  unfold trimWs at h
  rw [List.getLast?_reverse] at h
  cases hw : (l.dropWhile jsWs).reverse.dropWhile jsWs with
  | nil => rw [hw] at h; simp at h
  | cons d t =>
    rw [hw, List.head?_cons] at h
    cases h
    exact dropWhile_head_false hw

theorem trimWs_trimWs (l : List Char) : trimWs (trimWs l) = trimWs l := by
  cases h : trimWs l with
  | nil => rfl
  | cons c t =>
    have hc : jsWs c = false := trimWs_head_false h
    have hdrop : (c :: t).dropWhile jsWs = c :: t := by
      rw [List.dropWhile_cons, if_neg (by rw [hc]; exact Bool.false_ne_true)]
    show (((c :: t).dropWhile jsWs).reverse.dropWhile jsWs).reverse = c :: t
    rw [hdrop]
    cases hr : (c :: t).reverse with
    | nil => exact absurd hr (by simp)
    | cons d t' =>
      have hd : (c :: t).getLast? = some d := by
        rw [← List.head?_reverse, hr, List.head?_cons]
      have hdws : jsWs d = false := trimWs_getLast_false (h ▸ hd)
      rw [List.dropWhile_cons, if_neg (by rw [hdws]; exact Bool.false_ne_true), ← hr,
        List.reverse_reverse]

/-- Claim C5, amended: `normalize` is idempotent on every input whose
normalized form does not end in a strippable extension or in a trailing
`'_'`/`'.'`; in general a second application can strip further (see the
counterexample). -/
theorem claim5_amended (x : String)
    (h1 : stripExt (normalize x).data = (normalize x).data)
    (h2 : stripSep (normalize x).data = (normalize x).data) :
    normalize (normalize x) = normalize x := by
  have hy : (normalize x).data = trimWs (collapseAux false (stripSep (stripExt x.data))) := rfl
  have hcanon : WsCanon (normalize x).data := by
    rw [hy]
    exact wsCanon_trimWs (collapseAux_canon _ false)
  show (⟨trimWs (collapseWs (stripSep (stripExt (normalize x).data)))⟩ : String) = normalize x
  rw [h1, h2]
  unfold collapseWs
  rw [wsCanon_collapse_id _ hcanon, hy, trimWs_trimWs, ← hy]

/-- Claim C5, counterexample: `normalize` is not idempotent — stripping one
`".mp4"` suffix can expose another, so `normalize "a.mp4.mp4" = "a.mp4"`
while a second application yields `"a"`. -/
theorem claim5_counterexample :
    normalize "a.mp4.mp4" = "a.mp4"
    ∧ normalize (normalize "a.mp4.mp4") = "a"
    ∧ ¬ normalize (normalize "a.mp4.mp4") = normalize "a.mp4.mp4" := by
  refine ⟨by decide, by decide, by decide⟩

/-- Claim C5, witness for the amended theorem at `"My Video_.mp4"`, whose
normalized form `"My Video"` is not further strippable. -/
theorem claim5_witness :
    (stripExt (normalize "My Video_.mp4").data = (normalize "My Video_.mp4").data
      ∧ stripSep (normalize "My Video_.mp4").data = (normalize "My Video_.mp4").data)
    ∧ normalize (normalize "My Video_.mp4") = normalize "My Video_.mp4" :=
  ⟨⟨by decide, by decide⟩, claim5_amended "My Video_.mp4" (by decide) (by decide)⟩

/-! ## Transcoder lemmas -/

theorem crlfToLf_mem : ∀ (l : List Char) (c : Char), c ∈ l → c ≠ '\r' → c ∈ crlfToLf l := by
  intro l
  induction l using crlfToLf.induct with
  | case1 rest ih =>
    intro c hc hne
    rcases List.mem_cons.mp hc with h | h
    · exact absurd h hne
    · rcases List.mem_cons.mp h with h2 | h2
      · subst h2
        exact List.mem_cons_self _ _
      · exact List.mem_cons_of_mem _ (ih c h2 hne)
  | case2 x rest hnot ih =>
    intro c hc hne
    rw [crlfToLf.eq_2 x rest hnot]
    rcases List.mem_cons.mp hc with h | h
    · subst h
      exact List.mem_cons_self _ _
    · exact List.mem_cons_of_mem _ (ih c h hne)
  | case3 => intro c hc _; simp at hc

theorem crToLf_no_cr (l : List Char) : ∀ c ∈ crToLf l, c ≠ '\r' := by
  intro c hc
  obtain ⟨a, _, hfa⟩ := List.mem_map.mp hc
  by_cases ha : (a == '\r') = true
  · rw [← hfa, if_pos ha]
    decide
  · rw [← hfa, if_neg ha]
    exact fun he => ha (beq_iff_eq.mpr he)

theorem crToLf_mem_of_ne {l : List Char} {c : Char} (hc : c ∈ l) (hne : c ≠ '\r') :
    c ∈ crToLf l := by
  have : (if c == '\r' then '\n' else c) = c := by
    rw [if_neg (fun h => hne (beq_iff_eq.mp h))]
  exact this ▸ List.mem_map_of_mem _ hc

theorem fixTsAux_mem :
    ∀ (fuel : Nat) (l : List Char), l.length ≤ fuel →
      ∀ c ∈ fixTsAux fuel l, c ∈ l ∨ c = '.' := by
  intro fuel
  induction fuel with
  | zero => intro l _ c hc; exact Or.inl hc
  | succ fuel ih =>
    intro l hl c hc
    cases l with
    | nil => simp [fixTsAux] at hc
    | cons x rest =>
      rw [fixTsAux] at hc
      by_cases hts : tsAt (x :: rest) = true
      · rw [if_pos hts] at hc
        simp only [List.mem_append, List.mem_cons] at hc
        rcases hc with (h | h | h) | h
        · exact Or.inl (List.take_subset _ _ h)
        · exact Or.inr h
        · exact Or.inl (List.drop_subset _ _ (List.take_subset _ _ h))
        · have hlen : ((x :: rest).drop 12).length ≤ fuel := by
            simp only [List.length_drop, List.length_cons]
            simp only [List.length_cons] at hl
            omega
          rcases ih _ hlen c h with h4 | h4
          · exact Or.inl (List.drop_subset _ _ h4)
          · exact Or.inr h4
      · rw [if_neg hts] at hc
        rcases List.mem_cons.mp hc with h | h
        · exact Or.inl (h ▸ List.mem_cons_self x rest)
        · have hlen : rest.length ≤ fuel := by
            simp only [List.length_cons] at hl
            omega
          rcases ih rest hlen c h with h2 | h2
          · exact Or.inl (List.mem_cons_of_mem _ h2)
          · exact Or.inr h2

theorem fixTsAux_exists_not_ws :
    ∀ (fuel : Nat) (l : List Char), l.length ≤ fuel →
      (∃ c ∈ l, jsWs c = false) → ∃ c ∈ fixTsAux fuel l, jsWs c = false := by
  intro fuel
  induction fuel with
  | zero => intro l _ h; exact h
  | succ fuel ih =>
    intro l hl h
    cases l with
    | nil =>
      obtain ⟨c, hc, _⟩ := h
      simp at hc
    | cons x rest =>
      rw [fixTsAux]
      by_cases hts : tsAt (x :: rest) = true
      · rw [if_pos hts]
        refine ⟨'.', List.mem_append.mpr
          (Or.inl (List.mem_append.mpr (Or.inr (List.mem_cons_self _ _)))), by decide⟩
      · rw [if_neg hts]
        obtain ⟨c, hc, hcw⟩ := h
        rcases List.mem_cons.mp hc with h2 | h2
        · exact ⟨c, h2 ▸ List.mem_cons_self x _, hcw⟩
        · have hlen : rest.length ≤ fuel := by
            simp only [List.length_cons] at hl
            omega
          obtain ⟨d, hd, hdw⟩ := ih rest hlen ⟨c, h2, hcw⟩
          exact ⟨d, List.mem_cons_of_mem _ hd, hdw⟩

theorem trimWs_subset (l : List Char) : trimWs l ⊆ l := by
  intro c hc
  unfold trimWs at hc
  rw [List.mem_reverse] at hc
  have h1 := (dropWhile_isSuffix _).subset hc
  rw [List.mem_reverse] at h1
  exact (dropWhile_isSuffix l).subset h1

theorem trimWs_ne_nil {l : List Char} (h : ∃ c ∈ l, jsWs c = false) : trimWs l ≠ [] := by
  obtain ⟨c, hc, hcw⟩ := h
  intro hnil
  unfold trimWs at hnil
  rw [List.reverse_eq_nil_iff] at hnil
  have hall := List.dropWhile_eq_nil_iff.mp hnil
  have hc2 : c ∈ l.takeWhile jsWs ++ l.dropWhile jsWs := by
    rw [List.takeWhile_append_dropWhile]
    exact hc
  have hcw1 : c ∈ l.dropWhile jsWs := by
    rcases List.mem_append.mp hc2 with h1 | h1
    · exact absurd (List.mem_takeWhile_imp h1) (by rw [hcw]; exact Bool.false_ne_true)
    · exact h1
  exact absurd (hall c (List.mem_reverse.mpr hcw1)) (by rw [hcw]; exact Bool.false_ne_true)

/-- Claim C6, amended: for every input containing at least one
non-whitespace character, `srtToVtt` produces output free of carriage
returns, beginning with the `"WEBVTT"` header and a blank line, and ending
with exactly one trailing newline; leftmost non-overlapping occurrences of
the comma timestamp pattern are rewritten (an occurrence overlapping an
earlier match, and the degenerate whitespace-only input, are the
exceptions shown in the counterexample). -/
theorem claim6_amended (s : String) (h : ∃ c ∈ s.data, jsWs c = false) :
    (∀ c ∈ (srtToVtt s).data, c ≠ '\r')
    ∧ (∃ t, srtToVtt s = "WEBVTT\n\n" ++ t)
    ∧ endsOneLf (srtToVtt s) = true := by
  have hdata : (srtToVtt s).data
      = "WEBVTT\n\n".data ++ trimWs (fixTimestamps (crToLf (crlfToLf s.data))) ++ ['\n'] := by
    show ("WEBVTT\n\n" ++ ⟨trimWs (fixTimestamps (crToLf (crlfToLf s.data)))⟩ ++ "\n").data = _
    rw [String.data_append, String.data_append]
  obtain ⟨c0, hc0, hc0w⟩ := h
  have hc0r : c0 ≠ '\r' := fun he => by
    rw [he] at hc0w
    exact absurd hc0w (by decide)
  have hsurv : ∃ c ∈ fixTimestamps (crToLf (crlfToLf s.data)), jsWs c = false := by
    refine fixTsAux_exists_not_ws _ _ le_rfl ?_
    exact ⟨c0, crToLf_mem_of_ne (crlfToLf_mem s.data c0 hc0 hc0r) hc0r, hc0w⟩
  have hbody : trimWs (fixTimestamps (crToLf (crlfToLf s.data))) ≠ [] := trimWs_ne_nil hsurv
  refine ⟨?_, ⟨⟨trimWs (fixTimestamps (crToLf (crlfToLf s.data)))⟩ ++ "\n", by
    rw [← String.append_assoc]; rfl⟩, ?_⟩
  · intro c hc
    rw [hdata] at hc
    rcases List.mem_append.mp hc with h1 | h1
    · rcases List.mem_append.mp h1 with h2 | h2
      · exact (by decide : ∀ c ∈ "WEBVTT\n\n".data, c ≠ '\r') c h2
      · have h3 := trimWs_subset _ h2
        rcases fixTsAux_mem _ _ le_rfl c h3 with h4 | h4
        · exact crToLf_no_cr _ c h4
        · rw [h4]; decide
    · rw [List.mem_singleton.mp h1]
      decide
  · cases hb : (trimWs (fixTimestamps (crToLf (crlfToLf s.data)))).reverse with
    | nil => exact absurd (List.reverse_eq_nil_iff.mp hb) hbody
    | cons d t =>
      have hd : jsWs d = false := by
        refine trimWs_getLast_false (l := fixTimestamps (crToLf (crlfToLf s.data))) ?_
        rw [← List.head?_reverse, hb, List.head?_cons]
      have hdne : (d == '\n') = false := by
        refine beq_eq_false_iff_ne.mpr fun he => ?_
        rw [he] at hd
        exact absurd hd (by decide)
      have hrev : (srtToVtt s).data.reverse
          = '\n' :: d :: (t ++ "WEBVTT\n\n".data.reverse) := by
        rw [hdata, List.reverse_append, List.reverse_append, hb]
        rfl
      unfold endsOneLf
      rw [hrev]
      show (!(d == '\n')) = true
      rw [hdne]
      rfl

/-- Claim C6, counterexample: on the empty input the trimmed body is empty
and the output `"WEBVTT\n\n\n"` ends with three newlines, not one; and on
`"00:00:00,000:00:00,000"` the second, overlapping timestamp occurrence
keeps its comma — the global regex replaces only leftmost non-overlapping
matches. -/
theorem claim6_counterexample :
    srtToVtt "" = "WEBVTT\n\n\n"
    ∧ endsOneLf (srtToVtt "") = false
    ∧ srtToVtt "00:00:00,000:00:00,000" = "WEBVTT\n\n00:00:00.000:00:00,000\n"
    ∧ containsSeg "00:00:00,000".data (srtToVtt "00:00:00,000:00:00,000").data = true := by
  refine ⟨by decide, by decide, by decide, by decide⟩

/-- Claim C6, witness for the amended theorem at the specification's sample
input, also checking the rewritten timestamps and the exact output. -/
theorem claim6_witness :
    (∃ c ∈ ("00:00:08,667 --> 00:00:10,001\nHello" : String).data, jsWs c = false)
    ∧ ((∀ c ∈ (srtToVtt "00:00:08,667 --> 00:00:10,001\nHello").data, c ≠ '\r')
      ∧ (∃ t, srtToVtt "00:00:08,667 --> 00:00:10,001\nHello" = "WEBVTT\n\n" ++ t)
      ∧ endsOneLf (srtToVtt "00:00:08,667 --> 00:00:10,001\nHello") = true)
    ∧ srtToVtt "00:00:08,667 --> 00:00:10,001\nHello"
        = "WEBVTT\n\n00:00:08.667 --> 00:00:10.001\nHello\n"
    ∧ containsSeg "00:00:08.667".data
        (srtToVtt "00:00:08,667 --> 00:00:10,001\nHello").data = true
    ∧ containsSeg "00:00:10.001".data
        (srtToVtt "00:00:08,667 --> 00:00:10,001\nHello").data = true :=
  ⟨⟨'H', by decide, by decide⟩,
   claim6_amended "00:00:08,667 --> 00:00:10,001\nHello" ⟨'H', by decide, by decide⟩,
   by decide, by decide, by decide⟩

end Spotlightr
